import Mathlib

/-!
Verification development for the model-to-code generator in
`utils/model/gen_uml.py`.

The Python source manipulates dynamically typed parser elements.  The
embedding below represents each element kind as a structure carrying both
the raw parsed fields (identifier-valued references and scalar strings,
all optional, since the parser's lookup returns a neutral absent value
instead of failing) and the enrichment fields the resolution passes
assign.  Item access (`e["f"]`) in the source always reads the raw parsed
field; attribute access reads the enrichment field when a pass has
assigned it.  Python dicts are embedded as association lists with
insertion-order semantics (`dictInsert` replaces in place or appends, as
dict assignment does); exceptions (`KeyError`, `AttributeError`,
`ValueError` from `parse_association_end`, the duplicate-union
`AssertionError`, `IndexError` from unpacking the two member ends) become
the `Except GenError` monad.  The embedding starts from the bucketed
state of `generate` (its classes/properties/associations/operations/
extensions dictionaries, after the enrichment of stereotypes), which is
the part of the source the verified claims are about.
-/

namespace GenUml

abbrev Id := String

/-- Truthiness of an optional raw string field, as Python sees it:
absent and empty strings are falsy. -/
def pyTruthyS : Option String → Bool
  | none => false
  | some s => s != ""

/-- Python string interpolation of a possibly absent value: `None` prints
as the string "None". -/
def optStr : Option String → String
  | none => "None"
  | some s => s

/-- The qualified name `f"{a}.{b}"` built from two possibly absent
parts. -/
def fmt2 (a b : Option String) : String :=
  optStr a ++ "." ++ optStr b

/-- Python `x or d` for an optional raw string with a string default. -/
def pyOr (v : Option String) (d : String) : String :=
  match v with
  | none => d
  | some s => if s = "" then d else s

/-- Decimal reading of a digit string, structurally recursive so that it
evaluates inside the kernel. -/
def digitsToNat : List Char → Nat → Option Nat
  | [], acc => some acc
  | c :: rest, acc =>
      if c.isDigit then digitsToNat rest (acc * 10 + (c.toNat - 48))
      else none

/-- Python `int(x or 0)` for the raw `isDerived` field (the source only
ever meets numeric strings here). -/
def pyIntOr0 : Option String → Nat
  | none => 0
  | some s => if s = "" then 0 else (digitsToNat s.data 0).getD 0

/-- A multiplicity value: the resolved `lower` is either the raw string
bound or the integer `0` the source substitutes for `"*"`. -/
inductive MVal where
  | str : String → MVal
  | nat : Nat → MVal
  deriving Repr, DecidableEq, Inhabited

/-- The exceptions the generator can raise. -/
inductive GenError where
  | keyError (k : String)
  | attributeError
  | typeError
  | indexError
  | noName (id : Id)
  | duplicateUnion (class_name : Option String) (name : Option String)
      (otherClass : Option String)
  deriving Repr, DecidableEq

/-- Is an `Except` computation a success? -/
def exceptIsOk {α : Type} : Except GenError α → Bool
  | .ok _ => true
  | .error _ => false

/-- A slot of an applied stereotype instance, with its defining feature
name and value already dereferenced (the bucketing pass in `generate`
resolves `slot`, `value` and `definingFeature` eagerly). -/
structure Slot where
  definingFeatureName : String
  value : String
  deriving Repr, DecidableEq, Inhabited

/-- An applied stereotype instance reachable from a property. -/
structure StInstance where
  slot : List Slot
  deriving Repr, DecidableEq, Inhabited

/-- A `Class`-typed element, after bucketing and stereotype
enrichment. -/
structure ClassElem where
  id : Id
  name : String
  stereotypeName : Option String := none
  ownedAttribute : List Id := []
  ownedOperation : List Id := []
  deriving Repr, DecidableEq, Inhabited

/-- A `Property` element: raw parsed fields first, then the enrichment
fields assigned by `get_association_ends`, `parse_association_end` and
the emission loops of `generate`. -/
structure Property where
  id : Id
  name : Option String := none
  type_ref : Option Id := none
  class_ref : Option Id := none
  lowerValue : Option String := none
  upperValue : Option String := none
  aggregation : Option String := none
  isDerived : Option String := none
  typeValue : Option String := none
  association_ref : Option Id := none
  appliedStereotype : List StInstance := []
  typeE : Option ClassElem := none
  classE : Option ClassElem := none
  is_simple_attribute : Bool := false
  navigable : Bool := false
  class_name : Option String := none
  opposite_class_name : Option String := none
  lower : Option MVal := none
  upper : Option String := none
  subsets : List String := []
  composite : Bool := false
  derived : Nat := 0
  redefines : Option String := none
  written : Bool := false
  union : List Id := []
  deriving Repr, DecidableEq, Inhabited

/-- An `Association` element (its two or more member end identifiers). -/
structure Assoc where
  id : Id
  memberEnd : List Id
  deriving Repr, DecidableEq, Inhabited

/-- An `Extension` element (profile extension marking a metaclass). -/
structure Extension where
  id : Id
  memberEnd : List Id
  deriving Repr, DecidableEq, Inhabited

/-- An `Operation` element. -/
structure Operation where
  id : Id
  name : Option String := none
  deriving Repr, DecidableEq, Inhabited

/-- An entry of the global element table as consulted by
`filter_out_metaclasses`: an extension member end (with its raw `type`
reference) or the element such a reference points at (only its `id`
attribute is read). -/
structure AElem where
  id : Id
  type_ref : Option Id := none
  class_ref : Option Id := none
  deriving Repr, DecidableEq, Inhabited

abbrev ClassMap := List (Id × ClassElem)
abbrev PropMap := List (Id × Property)
abbrev DUMap := List (Option String × Property)
abbrev DAMap := List (Option String × Property)

/-- Python dict assignment `d[k] = v`: replace in place when the key is
present, append otherwise. -/
def dictInsert {α β : Type} [BEq α] : List (α × β) → α → β → List (α × β)
  | [], k, v => [(k, v)]
  | kv :: rest, k, v =>
      if kv.1 == k then (k, v) :: rest else kv :: dictInsert rest k v

/-- Python `del d[k]` once the key is known present: drop the entry. -/
def eraseKey (m : ClassMap) (k : Id) : ClassMap :=
  m.filter (fun kv => kv.1 != k)

/-- The member-end resolution loop of `filter_out_metaclasses`: fetch
each end from the element table, skip ends with a falsy raw `type`
reference, and pair the remaining ends with their dereferenced type
element.  A dangling identifier raises `KeyError` as the plain dict
lookups in the source do. -/
def resolveExtEnds (all : List (Id × AElem)) : List Id →
    Except GenError (List (AElem × AElem))
  | [] => .ok []
  | i :: rest =>
      match all.lookup i with
      | none => .error (.keyError i)
      | some en =>
          if pyTruthyS en.type_ref then
            match en.type_ref with
            | none => .error (.keyError "None")
            | some t =>
                match all.lookup t with
                | none => .error (.keyError t)
                | some te =>
                    match resolveExtEnds all rest with
                    | .error e => .error e
                    | .ok tl => .ok ((en, te) :: tl)
          else resolveExtEnds all rest

/-- Processing of one `Extension` by `filter_out_metaclasses`: if any
member end carried a resolved type, delete the class of the first such
end's type from the working class map (an unguarded `del`, raising
`KeyError` when the key is absent). -/
def processExtension (all : List (Id × AElem)) (classes : ClassMap)
    (e : Extension) : Except GenError ClassMap :=
  match resolveExtEnds all e.memberEnd with
  | .error err => .error err
  | .ok [] => .ok classes
  | .ok ((_, te) :: _) =>
      if (classes.lookup te.id).isSome then .ok (eraseKey classes te.id)
      else .error (.keyError te.id)

/-- `filter_out_metaclasses(classes, extensions, all_elements)`: remove
metaclasses from the class dict by walking every extension in order. -/
def filter_out_metaclasses (classes : ClassMap) (extensions : List Extension)
    (all : List (Id × AElem)) : Except GenError ClassMap :=
  match extensions with
  | [] => .ok classes
  | e :: rest =>
      match processExtension all classes e with
      | .error err => .error err
      | .ok cs => filter_out_metaclasses cs rest all

/-- `filter_out_simple_attributes(classes)`: drop classes stereotyped as
`SimpleAttribute`. -/
def filter_out_simple_attributes (classes : ClassMap) : ClassMap :=
  classes.filter (fun kv => kv.2.stereotypeName ≠ some "SimpleAttribute")

/-- Resolution of a single association end inside `get_association_ends`:
dereference the raw `type` reference against the class map passed in
(`classes[end["type"]]`, a plain dict lookup that raises `KeyError`, also
when the reference is absent, since `None` is never a key), dereference
the raw `class_` reference the same way when it is truthy, and mark the
end as a simple attribute when its type carries the `SimpleAttribute`
stereotype. -/
def resolveEnd (classes : ClassMap) (p : Property) : Except GenError Property :=
  match p.type_ref with
  | none => .error (.keyError "None")
  | some t =>
      match classes.lookup t with
      | none => .error (.keyError t)
      | some tc =>
          if pyTruthyS p.class_ref then
            match p.class_ref with
            | none => .error (.keyError "None")
            | some c =>
                match classes.lookup c with
                | none => .error (.keyError c)
                | some cc =>
                    .ok { p with
                          typeE := some tc
                          classE := some cc
                          is_simple_attribute :=
                            tc.stereotypeName == some "SimpleAttribute" }
          else
            .ok { p with
                  typeE := some tc
                  classE := none
                  is_simple_attribute :=
                    tc.stereotypeName == some "SimpleAttribute" }

/-- The end loop of `get_association_ends`: fetch each member end from
the properties dict, resolve it, and record in `asAttribute` the position
of the last end whose type is a `SimpleAttribute` class (the source
stores the end object itself in `a.asAttribute`; positions stand in for
object identity, the two member ends being distinct elements). -/
def resolve_ends_loop (properties : PropMap) (classes : ClassMap) :
    List Id → Nat → Option Nat → List (Id × Property) →
    Except GenError (Option Nat × List (Id × Property))
  | [], _, asAttr, acc => .ok (asAttr, acc)
  | pid :: rest, i, asAttr, acc =>
      match properties.lookup pid with
      | none => .error (.keyError pid)
      | some p =>
          match resolveEnd classes p with
          | .error e => .error e
          | .ok p2 =>
              resolve_ends_loop properties classes rest (i + 1)
                (if p2.is_simple_attribute then some i else asAttr)
                (acc ++ [(pid, p2)])

/-- `get_association_ends(a, properties, classes)`. -/
def get_association_ends (a : Assoc) (properties : PropMap)
    (classes : ClassMap) : Except GenError (Option Nat × List (Id × Property)) :=
  resolve_ends_loop properties classes a.memberEnd 0 none []

/-- The whitespace strip of `parse_association_tags`:
`value.replace(" ", "").replace("\n", "").replace("\r", "")`.  Replacing
every occurrence of a single character by the empty string is exactly a
filter, written structurally so it evaluates inside the kernel. -/
def stripWs (s : String) : String :=
  String.mk (s.data.filter (fun c => !(c == ' ' || c == '\n' || c == '\r')))

/-- Python `value.split(",")`, structurally recursive over the character
list (a single-character separator, empty parts kept). -/
def splitCommaAux : List Char → List Char → List String
  | [], acc => [String.mk acc]
  | c :: rest, acc =>
      if c = ',' then String.mk acc :: splitCommaAux rest []
      else splitCommaAux rest (acc ++ [c])

/-- Python `value.split(",")`. -/
def splitComma (s : String) : List String :=
  splitCommaAux s.data []

/-- The slot fold of `parse_association_tags`: collect the
comma-separated `subsets` names and the single `redefines` name, with
all whitespace stripped. -/
def parse_tags_slot (acc : List String × Option String) (sl : Slot) :
    List String × Option String :=
  let acc1 :=
    if sl.definingFeatureName = "subsets" then
      (splitComma (stripWs sl.value), acc.2)
    else acc
  if sl.definingFeatureName = "redefines" then
    (acc1.1, some (stripWs sl.value))
  else acc1

/-- `parse_association_tags`. -/
def parse_association_tags (sts : List StInstance) :
    List String × Option String :=
  sts.foldl (fun acc st => st.slot.foldl parse_tags_slot acc) ([], none)

/-- `parse_association_end(head, tail)`: enrich a navigable end with
name, multiplicity, tags, composition and denormalized class names; a
navigable end without a name raises `ValueError`; a non-navigable end is
returned untouched apart from its `navigable` flag (`tail` is accepted
but never read, as in the source). -/
def parse_association_end (head : Property) (tail : Property) :
    Except GenError Property :=
  let _ := tail
  if head.classE.isSome = false then
    .ok { head with navigable := false }
  else
    match head.name with
    | none => .error (.noName head.id)
    | some _ =>
        let upper := pyOr head.upperValue "*"
        let lower0 := pyOr head.lowerValue upper
        let lower := if lower0 = "*" then MVal.nat 0 else MVal.str lower0
        let tags := parse_association_tags head.appliedStereotype
        match head.classE, head.typeE with
        | some cE, some tE =>
            .ok { head with
                  navigable := true
                  class_name := some cE.name
                  opposite_class_name := some tE.name
                  lower := some lower
                  upper := some upper
                  subsets := tags.1
                  composite := head.aggregation == some "composite"
                  derived := pyIntOr0 head.isDerived
                  redefines := tags.2 }
        | _, _ => .error .typeError

/-- The calls the resolution engine hands to the emitter (`Writer`
methods) together with the console diagnostics (`msg`).  Attribute,
association, redefine, derived-union and operation calls carry the
descriptor fields the writer reads. -/
inductive Event where
  | classDefinition (name : String)
  | attribute (class_name : Option String) (name : Option String)
      (typeValue : Option String)
  | association (class_name : Option String) (name : Option String)
      (opposite_class_name : Option String)
  | redefine (class_name : Option String) (name : Option String)
      (redefines : Option String)
  | derivedunion (name : Option String) (union : List Id)
  | operation (class_name : String) (name : Option String)
  | write
  | comment (text : String)
  | msg (text : String)
  deriving Repr, DecidableEq, Inhabited

/-- State threaded through the association classification loop of
`generate`: the emitted events so far, the derived unions held back
(a dict indexed by end name), and the queued redefinitions. -/
structure AState where
  events : List Event := []
  derivedunions : DUMap := []
  redefines : List Property := []
  deriving Repr, DecidableEq, Inhabited

/-- One orientation `(e1, e2)` of the classification loop in `generate`:
the priority-ordered `if`/`elif` chain that settles an association end.
`asAttr` is the association's `asAttribute` mark (position of the simple
end), `i` the position of `e1`. -/
def process_orientation (derives : String → Bool) (asAttr : Option Nat)
    (i : Nat) (e1 e2 : Property) (st : AState) :
    Except GenError (Property × Property × AState) :=
  match asAttr with
  | some k =>
      if k = i ∧ e1.navigable = true then
        match e2.typeE with
        | none => .error .typeError
        | some t2 =>
            let e1b := { e1 with
                         class_name := some t2.name
                         typeValue := some "str" }
            let evc := Event.comment ("\x27" ++ t2.name ++ "." ++
              optStr e1b.name ++ "\x27 is a simple attribute")
            let eva := Event.attribute e1b.class_name e1b.name e1b.typeValue
            .ok ({ e1b with written := true }, { e2 with written := true },
                 { st with events := st.events ++ [evc, eva] })
      else .ok (e1, e2, st)
  | none =>
      if pyTruthyS e1.redefines then
        .ok (e1, e2, { st with redefines := st.redefines ++ [e1] })
      else if e1.derived ≠ 0 ∨ derives (fmt2 e1.class_name e1.name) = true then
        match st.derivedunions.lookup e1.name with
        | some other =>
            .error (.duplicateUnion e1.class_name e1.name other.class_name)
        | none =>
            let e1b := { e1 with union := [], written := false }
            .ok (e1b, e2,
                 { st with derivedunions :=
                     dictInsert st.derivedunions e1b.name e1b })
      else if e1.navigable then
        .ok (e1, e2,
             { st with events := st.events ++
                 [Event.association e1.class_name e1.name
                    e1.opposite_class_name] })
      else .ok (e1, e2, st)

/-- Processing of one association in `generate`: resolve the ends, write
the resolved end objects back into the properties dict (the source
mutates the shared property elements in place), parse both ends, run the
classification loop over both orientations, and write the final end
states back. -/
def process_association (derives : String → Bool) (all_classes : ClassMap)
    (st : AState) (props : PropMap) (a : Assoc) :
    Except GenError (AState × PropMap) :=
  match get_association_ends a props all_classes with
  | .error e => .error e
  | .ok (asAttr, ends) =>
      let props1 := ends.foldl (fun pm kv => dictInsert pm kv.1 kv.2) props
      match ends with
      | (k0, e0) :: (k1, e1) :: _ =>
          match parse_association_end e0 e1 with
          | .error e => .error e
          | .ok p0 =>
              match parse_association_end e1 e0 with
              | .error e => .error e
              | .ok p1 =>
                  match process_orientation derives asAttr 0 p0 p1 st with
                  | .error e => .error e
                  | .ok (p0b, p1b, st1) =>
                      match process_orientation derives asAttr 1 p1b p0b st1 with
                      | .error e => .error e
                      | .ok (p1c, p0c, st2) =>
                          .ok (st2,
                               dictInsert (dictInsert props1 k0 p0c) k1 p1c)
      | _ => .error .indexError

/-- The association loop of `generate` over all associations. -/
def association_pass (derives : String → Bool) (all_classes : ClassMap) :
    List Assoc → AState → PropMap → Except GenError (AState × PropMap)
  | [], st, props => .ok (st, props)
  | a :: rest, st, props =>
      match process_association derives all_classes st props a with
      | .error e => .error e
      | .ok (st1, props1) => association_pass derives all_classes rest st1 props1

/-- The owned-attribute loop of `generate` for one class: set the
denormalized `class_name` on every owned property, and for properties
not belonging to an association either hold them back as derived
attributes (when the override policy declares them derived) or emit an
attribute call. -/
def attr_prop_loop (derives : String → Bool) (cname : String) :
    List Id → List Event × DAMap × PropMap →
    Except GenError (List Event × DAMap × PropMap)
  | [], st => .ok st
  | pid :: rest, (evs, da, props) =>
      match props.lookup pid with
      | none => .error .attributeError
      | some a0 =>
          let a1 := { a0 with class_name := some cname }
          let props1 := dictInsert props pid a1
          if pyTruthyS a1.association_ref then
            attr_prop_loop derives cname rest (evs, da, props1)
          else if derives (fmt2 a1.class_name a1.name) then
            attr_prop_loop derives cname rest
              (evs, dictInsert da a1.name a1, props1)
          else
            attr_prop_loop derives cname rest
              (evs ++ [Event.attribute a1.class_name a1.name a1.typeValue],
               da, props1)

/-- The attribute pass of `generate` over all retained classes. -/
def attr_class_loop (derives : String → Bool) :
    List (Id × ClassElem) → List Event × DAMap × PropMap →
    Except GenError (List Event × DAMap × PropMap)
  | [], st => .ok st
  | (_, c) :: rest, st =>
      match attr_prop_loop derives c.name c.ownedAttribute st with
      | .error e => .error e
      | .ok st1 => attr_class_loop derives rest st1

/-- One subset name of the derived-union aggregation loop: when the raw
type of the subsetting property is a retained class, append the property
to the named union if it is registered, and emit the non-fatal
"not a derived union" console diagnostic otherwise (the caught
`KeyError`).  Properties whose raw type is not a retained class are
skipped entirely. -/
def subset_step (classes : ClassMap) (a : Property)
    (st : DUMap × List Event) (s : String) : DUMap × List Event :=
  let typeRetained :=
    match a.type_ref with
    | some t => (classes.lookup t).isSome
    | none => false
  if typeRetained then
    match st.1.lookup (some s) with
    | some entry =>
        (dictInsert st.1 (some s) { entry with union := entry.union ++ [a.id] },
         st.2)
    | none =>
        (st.1, st.2 ++
          [Event.msg ("not a derived union: " ++ optStr a.class_name ++
            "." ++ s)])
  else st

/-- The subsets loop of the aggregation pass for one property. -/
def aggregate_subsets (classes : ClassMap) (a : Property) :
    List String → DUMap × List Event → DUMap × List Event
  | [], st => st
  | s :: rest, st => aggregate_subsets classes a rest (subset_step classes a st s)

/-- The aggregation pass of `generate` over all properties. -/
def aggregate_props (classes : ClassMap) :
    PropMap → DUMap × List Event → DUMap × List Event
  | [], st => st
  | (_, a) :: rest, st =>
      aggregate_props classes rest (aggregate_subsets classes a a.subsets st)

/-- The redefinition emission loop of `generate`: a console notice and a
redefine call per queued end. -/
def redefine_events : List Property → List Event
  | [] => []
  | r :: rest =>
      Event.msg ("redefining " ++ optStr r.redefines ++ " -> " ++
        optStr r.class_name ++ "." ++ optStr r.name) ::
      Event.redefine r.class_name r.name r.redefines ::
      redefine_events rest

/-- The owned-operation loop of `generate` for one class. -/
def op_prop_loop (ops : List (Id × Operation)) (cname : String) :
    List Id → List Event → Except GenError (List Event)
  | [], evs => .ok evs
  | pid :: rest, evs =>
      match ops.lookup pid with
      | none => .error .attributeError
      | some o => op_prop_loop ops cname rest (evs ++ [Event.operation cname o.name])

/-- The operation pass of `generate` over all retained classes. -/
def op_class_loop (ops : List (Id × Operation)) :
    List (Id × ClassElem) → List Event → Except GenError (List Event)
  | [], evs => .ok evs
  | (_, c) :: rest, evs =>
      match op_prop_loop ops c.name c.ownedOperation evs with
      | .error e => .error e
      | .ok evs1 => op_class_loop ops rest evs1

/-- The bucketed input of `generate`: the element dictionaries extracted
from the parsed file (after generalization and stereotype enrichment)
plus the override policy predicate. -/
structure GenInput where
  classes : ClassMap := []
  extensions : List Extension := []
  all_elements : List (Id × AElem) := []
  properties : PropMap := []
  associations : List Assoc := []
  operations : List (Id × Operation) := []
  derives : String → Bool := fun _ => false

/-- The observable outcome of one `generate` run: the ordered calls and
diagnostics, the final state of the properties dict and the derived
union dict. -/
structure GenResult where
  events : List Event
  properties : PropMap
  derivedunions : DUMap
  deriving Repr, DecidableEq

/-- `generate`, from its bucketed state on (source lines 284-369): filter
metaclasses, then simple-attribute classes; emit class definitions; run
the attribute pass; run the association pass against the post-metaclass
(but pre-simple-attribute) class map `all_classes`; aggregate derived
unions; then emit held-back derived attributes, derived unions,
redefinitions, operations and the final write call. -/
def generate (inp : GenInput) : Except GenError GenResult :=
  match filter_out_metaclasses inp.classes inp.extensions inp.all_elements with
  | .error e => .error e
  | .ok cs1 =>
      let all_classes := cs1
      let classes := filter_out_simple_attributes cs1
      let classDefinitionEvents := classes.map (fun kc => Event.classDefinition kc.2.name)
      match attr_class_loop inp.derives classes ([], [], inp.properties) with
      | .error e => .error e
      | .ok (attrEvents, derivedattributes, props1) =>
          match association_pass inp.derives all_classes inp.associations
              {} props1 with
          | .error e => .error e
          | .ok (ast, props2) =>
              let agg := aggregate_props classes props2 (ast.derivedunions, [])
              let derivedAttrEvents := derivedattributes.map
                (fun kv => Event.attribute kv.2.class_name kv.2.name kv.2.typeValue)
              let duEvents := agg.1.map
                (fun kv => Event.derivedunion kv.1 kv.2.union)
              match op_class_loop inp.operations classes [] with
              | .error e => .error e
              | .ok opEvents =>
                  .ok { events := classDefinitionEvents ++ attrEvents ++ ast.events ++
                          agg.2 ++ derivedAttrEvents ++ duEvents ++
                          redefine_events ast.redefines ++ opEvents ++
                          [Event.write]
                        properties := props2
                        derivedunions := agg.1 }

/-- The five end outcomes named by the specification. -/
inductive Classification where
  | nonNavigable
  | simpleAttribute
  | redefinition
  | derivedUnionMember
  | plainAssociation
  deriving Repr, DecidableEq

/-- Classification of one association end following the specification's
wording and priority order: a non-navigable end contributes nothing; an
end of an association marked as a simple attribute is settled by the
simple-attribute rewrite; then redefinition, derived-union membership
and plain navigable association.  This is the spec-side decision
function, to be compared with the `if`/`elif` chain of
`process_orientation` translated from the source. -/
def classification (asAttr : Option Nat) (e1 : Property)
    (derives : String → Bool) : Classification :=
  if e1.navigable = false then .nonNavigable
  else if asAttr.isSome then .simpleAttribute
  else if pyTruthyS e1.redefines then .redefinition
  else if e1.derived ≠ 0 ∨ derives (fmt2 e1.class_name e1.name) = true then
    .derivedUnionMember
  else .plainAssociation

/-- Recognizer for class-definition emitter calls. -/
def isClassdefCall : Event → Bool
  | .classDefinition _ => true
  | _ => false

/-- Recognizer for attribute emitter calls. -/
def isAttributeCall : Event → Bool
  | .attribute _ _ _ => true
  | _ => false

/-- Recognizer for association emitter calls. -/
def isAssociationCall : Event → Bool
  | .association _ _ _ => true
  | _ => false

/-- Recognizer for redefine emitter calls. -/
def isRedefineCall : Event → Bool
  | .redefine _ _ _ => true
  | _ => false

/-- Recognizer for derived-union emitter calls. -/
def isDerivedunionCall : Event → Bool
  | .derivedunion _ _ => true
  | _ => false

/-- Recognizer for operation emitter calls. -/
def isOperationCall : Event → Bool
  | .operation _ _ => true
  | _ => false

/-- Recognizer for comment calls (diagnostic sink, in no emitter
group). -/
def isCommentCall : Event → Bool
  | .comment _ => true
  | _ => false

/-- Recognizer for console diagnostics (not emitter calls at all). -/
def isMsgCall : Event → Bool
  | .msg _ => true
  | _ => false

/-- The grouped emitter calls of a run: comments and console diagnostics
are not part of the seven claimed groups. -/
def isEmitterCall : Event → Bool
  | .comment _ => false
  | .msg _ => false
  | _ => true

/-- The emitter-call subsequence of an event stream. -/
def emitterCalls (evs : List Event) : List Event :=
  evs.filter isEmitterCall

/-- The rank of each emitter-call group in the order claimed by the
specification: class definitions, then all attribute calls, then
association calls, then redefine calls, then derived-union calls, then
operation calls, then the final write. -/
def claimRank : Event → Nat
  | .classDefinition _ => 0
  | .attribute _ _ _ => 1
  | .association _ _ _ => 2
  | .redefine _ _ _ => 3
  | .derivedunion _ _ => 4
  | .operation _ _ => 5
  | .write => 6
  | .comment _ => 0
  | .msg _ => 0

/-- A rank sequence respects the claimed group order when no later-group
rank precedes an earlier-group rank. -/
def ranksOrdered : List Nat → Bool
  | [] => true
  | [_] => true
  | a :: b :: rest => a ≤ b && ranksOrdered (b :: rest)

/-- Concrete model, class `Box`. -/
def boxElem : ClassElem :=
  { id := "box", name := "Box" }

/-- Concrete model, class `Color`, stereotyped `SimpleAttribute`. -/
def colorElem : ClassElem :=
  { id := "color_cls", name := "Color",
    stereotypeName := some "SimpleAttribute" }

/-- Concrete model, the non-navigable `Box`-typed association end. -/
def peBox : Property :=
  { id := "pe_box", type_ref := some "box" }

/-- Concrete model, the navigable `Color`-typed end named `color`, owned
by `Box`. -/
def peColor : Property :=
  { id := "pe_color", name := some "color", type_ref := some "color_cls",
    class_ref := some "box" }

/-- Concrete model, the `Box`-`Color` association. -/
def c9assoc : Assoc :=
  { id := "a1", memberEnd := ["pe_box", "pe_color"] }

/-- Concrete model for the simple-attribute scenario: class `Box`, a
`SimpleAttribute`-stereotyped class `Color`, and one association whose
`Color`-typed end is named `color`. -/
def c9input : GenInput :=
  { classes := [("box", boxElem), ("color_cls", colorElem)]
    properties := [("pe_box", peBox), ("pe_color", peColor)]
    associations := [c9assoc] }

/-- The run of `generate` on the simple-attribute scenario. -/
def c9res : GenResult :=
  match generate c9input with
  | .ok r => r
  | .error _ => { events := [], properties := [], derivedunions := [] }

/-- Concrete model, class `C` for the emitter-order run. -/
def cElemC3 : ClassElem :=
  { id := "c1", name := "C" }

/-- Concrete model, a derived association end (`isDerived` set). -/
def c3u1 : Property :=
  { id := "u1", name := some "items", type_ref := some "c1",
    class_ref := some "c1", isDerived := some "1" }

/-- Concrete model, its non-navigable opposite end. -/
def c3u2 : Property :=
  { id := "u2", type_ref := some "c1" }

/-- Concrete model, a redefining association end (a `redefines` slot on
an applied stereotype). -/
def c3r1 : Property :=
  { id := "r1", name := some "shape", type_ref := some "c1",
    class_ref := some "c1",
    appliedStereotype :=
      [{ slot := [{ definingFeatureName := "redefines", value := "base" }] }] }

/-- Concrete model, its non-navigable opposite end. -/
def c3r2 : Property :=
  { id := "r2", type_ref := some "c1" }

/-- Concrete model with one derived-union end and one redefining end, in
one run: the code emits the derived-union call before the redefine
call. -/
def c3input : GenInput :=
  { classes := [("c1", cElemC3)]
    properties := [("u1", c3u1), ("u2", c3u2), ("r1", c3r1), ("r2", c3r2)]
    associations := [{ id := "au", memberEnd := ["u1", "u2"] },
                     { id := "ar", memberEnd := ["r1", "r2"] }] }

/-- The run of `generate` on the emitter-order model. -/
def c3res : GenResult :=
  match generate c3input with
  | .ok r => r
  | .error _ => { events := [], properties := [], derivedunions := [] }

/-- Concrete model, classes `A` and `B` for the metaclass filter. -/
def c2A : ClassElem :=
  { id := "A", name := "A" }

/-- Concrete model, class `B`. -/
def c2B : ClassElem :=
  { id := "B", name := "B" }

/-- Concrete element table: one extension with two member ends, each
with a resolved navigable type (`A` and `B`). -/
def c2all : List (Id × AElem) :=
  [("p1", { id := "p1", type_ref := some "A", class_ref := some "A" }),
   ("p2", { id := "p2", type_ref := some "B", class_ref := some "B" }),
   ("A", { id := "A" }), ("B", { id := "B" })]

/-- The extension whose two member ends are typed `A` and `B`. -/
def c2ext : Extension :=
  { id := "ex", memberEnd := ["p1", "p2"] }

/-- Concrete model, the metaclass for the unguarded-deletion run. -/
def c10M : ClassElem :=
  { id := "M", name := "M" }

/-- Concrete element table for the unguarded-deletion run. -/
def c10all : List (Id × AElem) :=
  [("p1", { id := "p1", type_ref := some "M" }), ("M", { id := "M" })]

/-- First extension targeting `M` (removes it). -/
def c10ext1 : Extension :=
  { id := "x1", memberEnd := ["p1"] }

/-- Second extension targeting `M` (its deletion raises `KeyError`). -/
def c10ext2 : Extension :=
  { id := "x2", memberEnd := ["p1"] }

/-- A navigable end with `lowerValue = "1"` and `upperValue = "*"`: its
resolved upper is `"*"` while its resolved lower stays `"1"`. -/
def c7head : Property :=
  { id := "p_c7", name := some "x", class_ref := some "box",
    lowerValue := some "1", upperValue := some "*",
    classE := some boxElem, typeE := some boxElem }

/-- The enrichment `parse_association_end` computes for `c7head`. -/
def c7out : Property :=
  match parse_association_end c7head c7head with
  | .ok o => o
  | .error _ => c7head

/-- A navigable end with no name, for the fatal-error witness. -/
def c6head : Property :=
  { id := "p_c6", class_ref := some "box",
    classE := some boxElem, typeE := some boxElem }

/-- A property with a dangling subset reference whose raw type is not a
retained class: the aggregation loop skips it without any diagnostic. -/
def c8prop : Property :=
  { id := "p_c8", name := some "kids", class_ref := some "box",
    type_ref := some "color_cls", class_name := some "Box",
    subsets := ["u"] }

/-- The `color` end as `get_association_ends` resolves it, for the
multiplicity witness (both bounds absent). -/
def peColorParsed : Property :=
  { peColor with
    typeE := some colorElem
    classE := some boxElem
    is_simple_attribute := true }

/-- The enrichment `parse_association_end` computes for
`peColorParsed`. -/
def peColorParsedOut : Property :=
  match parse_association_end peColorParsed peColorParsed with
  | .ok o => o
  | .error _ => peColorParsed

/-- A property like `c8prop` but typed by a retained class, for the
dangling-subset diagnostic witness. -/
def c8propRetained : Property :=
  { id := "p_c8b", name := some "kids", class_ref := some "c1",
    type_ref := some "c1", class_name := some "C",
    subsets := ["u"] }

/-- An association end whose raw type reference names a removed
metaclass, for the failed-lookup part of the dereference claim. -/
def c4pm : Property :=
  { id := "pm", name := some "m", type_ref := some "gone",
    class_ref := some "box" }

/-- The properties dict of the failed-lookup run. -/
def c4props : PropMap :=
  [("pm", c4pm)]

/-- The association whose end points at the removed metaclass. -/
def c4assoc : Assoc :=
  { id := "a_c4", memberEnd := ["pm"] }

/-- The class map of the failed-lookup run (the metaclass `gone` is not
in it). -/
def c4classes : ClassMap :=
  [("box", boxElem)]

/-- The derived end `c3u1` in its parsed state, for the derived-union
registration witness. -/
def c5e1 : Property :=
  { c3u1 with
    navigable := true
    typeE := some cElemC3
    classE := some cElemC3
    class_name := some "C"
    opposite_class_name := some "C"
    lower := some (MVal.nat 0)
    upper := some "*"
    derived := 1 }

/-- The run of one orientation on the derived end `c5e1`, for the
classification witness. -/
def c1wRun : Property × Property × AState :=
  match process_orientation (fun _ => false) none 0 c5e1 c3u2 {} with
  | .ok r => r
  | .error _ => (c5e1, c3u2, {})

/-- The settled end of the classification witness run. -/
def c1wE1 : Property := c1wRun.1

/-- The opposite end of the classification witness run. -/
def c1wE2 : Property := c1wRun.2.1

/-- The loop state after the classification witness run. -/
def c1wSt2 : AState := c1wRun.2.2

theorem dictInsert_eq_append {α β : Type} [BEq α] [LawfulBEq α]
    (l : List (α × β)) (k : α) (v : β) (h : l.lookup k = none) :
    dictInsert l k v = l ++ [(k, v)] := by
  induction l with
  | nil => rfl
  | cons kv rest ih =>
    simp only [List.lookup] at h
    cases hk : k == kv.1 with
    | true => rw [hk] at h; cases h
    | false =>
      rw [hk] at h
      have hne : kv.1 ≠ k := fun he => by
        rw [he, beq_self_eq_true] at hk; cases hk
      have hkk : (kv.1 == k) = false := beq_eq_false_iff_ne.mpr hne
      have hstep : dictInsert (kv :: rest) k v = kv :: dictInsert rest k v := by
        simp [dictInsert, hkk]
      rw [hstep, ih h]
      rfl

theorem filter_out_metaclasses_append (cs : ClassMap) (l1 l2 : List Extension)
    (all : List (Id × AElem)) :
    filter_out_metaclasses cs (l1 ++ l2) all =
      match filter_out_metaclasses cs l1 all with
      | .ok m => filter_out_metaclasses m l2 all
      | .error e => .error e := by
  induction l1 generalizing cs with
  | nil => simp [filter_out_metaclasses]
  | cons e rest ih =>
    simp only [List.cons_append, filter_out_metaclasses]
    cases processExtension all cs e with
    | error err => rfl
    | ok m => exact ih m

/-- C6: `parse_association_end` raises a fatal error exactly when the end
is navigable (its `class_` reference resolved to an owning class) and its
`name` is absent; a non-navigable end, named or unnamed, is returned
without error and receives no further classification attributes (only its
`navigable` flag is set).  The hypothesis records the invariant that the
end's type was resolved by `get_association_ends` before parsing. -/
theorem c6_parse_end_fatal_iff (head tail : Property)
    (ht : head.typeE.isSome = true) :
    (exceptIsOk (parse_association_end head tail) = false ↔
      head.classE.isSome = true ∧ head.name = none) ∧
    (head.classE = none →
      parse_association_end head tail = .ok { head with navigable := false }) := by
  cases hc : head.classE with
  | none =>
    cases hn : head.name <;>
      simp [parse_association_end, exceptIsOk, hc, hn]
  | some cE =>
    cases htE : head.typeE with
    | none => rw [htE] at ht; cases ht
    | some tE =>
      cases hn : head.name <;>
        simp [parse_association_end, exceptIsOk, hc, hn, htE]

/-- C6 witness: a navigable end without a name is a fatal error, and the
same end with its owning class removed parses cleanly. -/
theorem c6_parse_end_fatal_iff_witness :
    (exceptIsOk (parse_association_end c6head c6head) = false ↔
      c6head.classE.isSome = true ∧ c6head.name = none) ∧
    (c6head.classE = none →
      parse_association_end c6head c6head =
        .ok { c6head with navigable := false }) :=
  c6_parse_end_fatal_iff c6head c6head (by decide)

/-- C7 counterexample: the claim states that a resolved upper of `"*"`
forces a resolved lower of `0`; the end `c7head` with
`lowerValue = "1"`, `upperValue = "*"` resolves to upper `"*"` and lower
`"1"`, not `0`. -/
theorem c7_counterexample :
    parse_association_end c7head c7head = .ok c7out ∧
    c7out.upper = some "*" ∧ c7out.lower = some (MVal.str "1") ∧
    MVal.str "1" ≠ MVal.nat 0 :=
  ⟨rfl, rfl, rfl, by decide⟩

theorem pyOr_none (d : String) : pyOr none d = d := rfl

theorem pyOr_some_star (d : String) : pyOr (some "*") d = "*" := rfl

theorem parse_association_end_navigable (head tail : Property)
    (cE tE : ClassElem) (nm : String)
    (hc : head.classE = some cE) (ht : head.typeE = some tE)
    (hn : head.name = some nm) :
    parse_association_end head tail = .ok
      { head with
        navigable := true
        class_name := some cE.name
        opposite_class_name := some tE.name
        lower := some (if pyOr head.lowerValue (pyOr head.upperValue "*") = "*"
          then MVal.nat 0
          else MVal.str (pyOr head.lowerValue (pyOr head.upperValue "*")))
        upper := some (pyOr head.upperValue "*")
        subsets := (parse_association_tags head.appliedStereotype).1
        composite := head.aggregation == some "composite"
        derived := pyIntOr0 head.isDerived
        redefines := (parse_association_tags head.appliedStereotype).2 } := by
  simp [parse_association_end, hc, ht, hn]

/-- C7 amended: for a navigable end, an absent `upperValue` resolves the
upper to `"*"`; an absent `lowerValue` makes the lower equal the resolved
upper, except that a lower of `"*"` (and only a lower of `"*"`) is
normalized to the integer `0`. -/
theorem c7_multiplicity_normalization (head tail out : Property)
    (hnav : head.classE.isSome = true)
    (h : parse_association_end head tail = .ok out) :
    (head.upperValue = none → out.upper = some "*") ∧
    (head.lowerValue = none → out.upper ≠ some "*" →
      out.lower = out.upper.map MVal.str) ∧
    (head.lowerValue = none → out.upper = some "*" →
      out.lower = some (MVal.nat 0)) ∧
    (head.lowerValue = some "*" → out.lower = some (MVal.nat 0)) := by
  cases hc : head.classE with
  | none => rw [hc] at hnav; cases hnav
  | some cE =>
    cases htE : head.typeE with
    | none =>
      cases hn : head.name <;>
        simp [parse_association_end, hc, hn, htE] at h
    | some tE =>
      cases hn : head.name with
      | none => simp [parse_association_end, hc, hn] at h
      | some nm =>
        rw [parse_association_end_navigable head tail cE tE nm hc htE hn] at h
        injection h with h
        subst h
        refine ⟨?_, ?_, ?_, ?_⟩
        · intro hU
          show some (pyOr head.upperValue "*") = some "*"
          rw [hU, pyOr_none]
        · intro hL hne
          have hu : pyOr head.upperValue "*" ≠ "*" := by
            intro he
            apply hne
            show some (pyOr head.upperValue "*") = some "*"
            rw [he]
          show some (if pyOr head.lowerValue (pyOr head.upperValue "*") = "*"
              then MVal.nat 0
              else MVal.str (pyOr head.lowerValue (pyOr head.upperValue "*"))) =
            Option.map MVal.str (some (pyOr head.upperValue "*"))
          rw [hL, pyOr_none, if_neg hu]
          rfl
        · intro hL hstar
          have hu : pyOr head.upperValue "*" = "*" := by
            have hs : some (pyOr head.upperValue "*") = some "*" := hstar
            exact Option.some.inj hs
          show some (if pyOr head.lowerValue (pyOr head.upperValue "*") = "*"
              then MVal.nat 0
              else MVal.str (pyOr head.lowerValue (pyOr head.upperValue "*"))) =
            some (MVal.nat 0)
          rw [hL, pyOr_none, if_pos hu]
        · intro hL
          show some (if pyOr head.lowerValue (pyOr head.upperValue "*") = "*"
              then MVal.nat 0
              else MVal.str (pyOr head.lowerValue (pyOr head.upperValue "*"))) =
            some (MVal.nat 0)
          rw [hL, pyOr_some_star, if_pos rfl]

/-- C7 witness for the amended statement: an end with both bounds absent
resolves to upper `"*"` and lower `0`. -/
theorem c7_multiplicity_normalization_witness :
    (peColorParsed.upperValue = none → peColorParsedOut.upper = some "*") ∧
    (peColorParsed.lowerValue = none → peColorParsedOut.upper ≠ some "*" →
      peColorParsedOut.lower = peColorParsedOut.upper.map MVal.str) ∧
    (peColorParsed.lowerValue = none → peColorParsedOut.upper = some "*" →
      peColorParsedOut.lower = some (MVal.nat 0)) ∧
    (peColorParsed.lowerValue = some "*" →
      peColorParsedOut.lower = some (MVal.nat 0)) :=
  c7_multiplicity_normalization peColorParsed peColorParsed peColorParsedOut
    (by decide) rfl

/-- C10: once the processing of earlier extensions has produced the
working class map `m`, an extension whose first type-resolved member end
has a type whose identifier is not a key of `m` makes
`filter_out_metaclasses` fail with that `KeyError` (the deletion is
unguarded); and whenever the key is present, the deletion removes
exactly the first type-resolved end's type, never another end's. -/
theorem c10_unguarded_first_deletion (all : List (Id × AElem))
    (cs m : ClassMap) (pre suf : List Extension) (e : Extension)
    (en te : AElem) (r : List (AElem × AElem))
    (hpre : filter_out_metaclasses cs pre all = .ok m)
    (hres : resolveExtEnds all e.memberEnd = .ok ((en, te) :: r))
    (habs : m.lookup te.id = none) :
    filter_out_metaclasses cs (pre ++ e :: suf) all =
      .error (.keyError te.id) ∧
    ∀ cs2 : ClassMap, (cs2.lookup te.id).isSome = true →
      processExtension all cs2 e = .ok (eraseKey cs2 te.id) := by
  constructor
  · rw [filter_out_metaclasses_append, hpre]
    have hpe : processExtension all m e = .error (.keyError te.id) := by
      simp [processExtension, hres, habs]
    simp [filter_out_metaclasses, hpe]
  · intro cs2 h2
    simp [processExtension, hres, h2]

/-- C10 witness: two extensions both targeting class `M`; the first
removes it, so the second's unguarded deletion raises `KeyError`. -/
theorem c10_unguarded_first_deletion_witness :
    filter_out_metaclasses [("M", c10M)] ([c10ext1] ++ c10ext2 :: []) c10all =
      .error (.keyError "M") :=
  (c10_unguarded_first_deletion c10all [("M", c10M)] [] [c10ext1] [] c10ext2
    { id := "p1", type_ref := some "M" } { id := "M" } [] rfl rfl rfl).1

/-- C2 counterexample: the claim states that every class that is the
navigable target of some Extension member end is removed; `c2ext` has
two member ends with resolved navigable types `A` and `B`, yet the
filter removes only `A`, leaving `B` in the map. -/
theorem c2_counterexample :
    filter_out_metaclasses [("A", c2A), ("B", c2B)] [c2ext] c2all =
      .ok [("B", c2B)] ∧
    (match c2all.lookup "p2" with
     | some en => en.type_ref = some "B" ∧ pyTruthyS en.class_ref = true
     | none => False) :=
  ⟨rfl, ⟨rfl, rfl⟩⟩

/-- C2 amended: processing one Extension either leaves the class map
unchanged (when no member end has a resolved type, navigability never
being consulted) or removes exactly the type of the first type-resolved
member end, and nothing else. -/
theorem c2_extension_step_characterization (all : List (Id × AElem))
    (cs m2 : ClassMap) (e : Extension)
    (h : processExtension all cs e = .ok m2) :
    (resolveExtEnds all e.memberEnd = .ok [] ∧ m2 = cs) ∨
    (∃ en te r, resolveExtEnds all e.memberEnd = .ok ((en, te) :: r) ∧
      (cs.lookup te.id).isSome = true ∧ m2 = eraseKey cs te.id) := by
  unfold processExtension at h
  cases hres : resolveExtEnds all e.memberEnd with
  | error err => rw [hres] at h; cases h
  | ok ends =>
    rw [hres] at h
    cases ends with
    | nil =>
      left
      exact ⟨rfl, (Except.ok.inj h).symm⟩
    | cons hd tl =>
      right
      obtain ⟨en, te⟩ := hd
      simp only at h
      split at h
      · next hs => exact ⟨en, te, tl, rfl, hs, (Except.ok.inj h).symm⟩
      · cases h

/-- C2 witness: the characterization applied to the two-ended extension
run, where exactly `A` (the first resolved end's type) was removed. -/
theorem c2_extension_step_characterization_witness :
    (resolveExtEnds c2all c2ext.memberEnd = .ok [] ∧
      ([("B", c2B)] : ClassMap) = [("A", c2A), ("B", c2B)]) ∨
    (∃ en te r,
      resolveExtEnds c2all c2ext.memberEnd = .ok ((en, te) :: r) ∧
      (([("A", c2A), ("B", c2B)] : ClassMap).lookup te.id).isSome = true ∧
      ([("B", c2B)] : ClassMap) = eraseKey [("A", c2A), ("B", c2B)] te.id) :=
  c2_extension_step_characterization c2all [("A", c2A), ("B", c2B)]
    [("B", c2B)] c2ext rfl

/-- C5: in the derived-union branch of the classification loop (no
simple-attribute mark, no truthy `redefines`, the end derived or
declared derived by the override policy), a name already registered in
the derived-union dict aborts generation with the duplicate-derivation
error naming both classes and the property, while a fresh name registers
the end with an empty `union` list attached, emitting nothing (in
particular no plain association call). -/
theorem c5_derived_union_registration (derives : String → Bool) (i : Nat)
    (e1 e2 : Property) (st : AState)
    (hr : pyTruthyS e1.redefines = false)
    (hd : e1.derived ≠ 0 ∨ derives (fmt2 e1.class_name e1.name) = true) :
    (∀ other, st.derivedunions.lookup e1.name = some other →
      process_orientation derives none i e1 e2 st =
        .error (.duplicateUnion e1.class_name e1.name other.class_name)) ∧
    (st.derivedunions.lookup e1.name = none →
      process_orientation derives none i e1 e2 st =
        .ok ({ e1 with union := [], written := false }, e2,
          { st with derivedunions := st.derivedunions ++
              [(e1.name, { e1 with union := [], written := false })] })) := by
  constructor
  · intro other hdup
    simp [process_orientation, hr, hd, hdup]
  · intro hfresh
    simp [process_orientation, hr, hd, hfresh,
      dictInsert_eq_append st.derivedunions e1.name _ hfresh]

/-- C5 witness: registering the concrete derived end `c3u1` (parsed)
into an empty union dict succeeds with an empty union list. -/
theorem c5_derived_union_registration_witness :
    (∀ other, (([] : DUMap).lookup c5e1.name = some other →
      process_orientation (fun _ => false) none 0 c5e1 c3u2 {} =
        .error (.duplicateUnion c5e1.class_name c5e1.name
          other.class_name))) ∧
    (([] : DUMap).lookup c5e1.name = none →
      process_orientation (fun _ => false) none 0 c5e1 c3u2 {} =
        .ok ({ c5e1 with union := [], written := false }, c3u2,
          { ({} : AState) with derivedunions :=
              ([] : DUMap) ++
                [(c5e1.name, { c5e1 with union := [], written := false })] })) :=
  c5_derived_union_registration (fun _ => false) 0 c5e1 c3u2 {}
    (by decide) (by decide)

/-- C8 counterexample: the claim demands exactly one diagnostic for
every property with a dangling subset name; `c8prop` has the dangling
subset `u` (no union `u` is registered), yet the aggregation pass emits
none, because its raw type is not a key of the retained class map. -/
theorem c8_counterexample :
    aggregate_props [("box", boxElem)] [("p_c8", c8prop)] ([], []) =
      ([], []) ∧
    c8prop.subsets = ["u"] ∧ (([] : DUMap).lookup (some "u") = none) :=
  ⟨rfl, rfl, rfl⟩

/-- C8 amended: for a subset name of a property whose raw type is a
retained class and for which no derived union is registered, the
aggregation step emits exactly one "not a derived union" diagnostic,
leaves the union dict unchanged, and (being a total function) never
aborts. -/
theorem c8_dangling_subset_diagnostic (classes : ClassMap) (a : Property)
    (dus : DUMap) (msgs : List Event) (s : String) (t : Id)
    (hty : a.type_ref = some t) (hret : (classes.lookup t).isSome = true)
    (hmiss : dus.lookup (some s) = none) :
    subset_step classes a (dus, msgs) s =
      (dus, msgs ++ [Event.msg ("not a derived union: " ++
        optStr a.class_name ++ "." ++ s)]) := by
  simp [subset_step, hty, hret, hmiss]

/-- C8 witness: the dangling subset `u` of a retained-type property
produces exactly the one diagnostic. -/
theorem c8_dangling_subset_diagnostic_witness :
    subset_step [("c1", cElemC3)] c8propRetained ([], []) "u" =
      ([], [] ++ [Event.msg ("not a derived union: " ++
        optStr c8propRetained.class_name ++ "." ++ "u")]) :=
  c8_dangling_subset_diagnostic [("c1", cElemC3)] c8propRetained [] [] "u"
    "c1" rfl rfl rfl

theorem resolve_ends_loop_fails (properties : PropMap) (classes : ClassMap)
    (pid : Id) (p : Property) (t : Id)
    (hp : properties.lookup pid = some p)
    (ht : p.type_ref = some t) (hc : classes.lookup t = none) :
    ∀ (ids : List Id) (i : Nat) (asAttr : Option Nat)
      (acc : List (Id × Property)), pid ∈ ids →
      exceptIsOk (resolve_ends_loop properties classes ids i asAttr acc) =
        false := by
  intro ids
  induction ids with
  | nil => intro i asAttr acc hmem; cases hmem
  | cons hd tl ih =>
    intro i asAttr acc hmem
    rcases List.mem_cons.mp hmem with heq | hmem2
    · subst heq
      simp [resolve_ends_loop, hp, resolveEnd, ht, hc, exceptIsOk]
    · simp only [resolve_ends_loop]
      cases hl : properties.lookup hd with
      | none => simp [exceptIsOk]
      | some q =>
        cases hr : resolveEnd classes q with
        | error e => simp [hr, exceptIsOk]
        | ok q2 =>
          simp only [hr]
          exact ih _ _ _ hmem2

/-- C4: association-end dereferencing in `get_association_ends`.  An end
whose raw type identifier is not a key of the class map the association
pass receives (for example a removed metaclass) makes the resolution
fail with a lookup error; but an end whose type resolves to a
`SimpleAttribute`-stereotyped class succeeds and is marked as a simple
attribute — such classes are still present in the map the pass receives
(`all_classes`, taken before `filter_out_simple_attributes`). -/
theorem c4_end_dereference (a : Assoc) (properties : PropMap)
    (classes : ClassMap) :
    (∀ pid p t, pid ∈ a.memberEnd → properties.lookup pid = some p →
      p.type_ref = some t → classes.lookup t = none →
      exceptIsOk (get_association_ends a properties classes) = false) ∧
    (∀ p t tc, p.type_ref = some t → classes.lookup t = some tc →
      tc.stereotypeName = some "SimpleAttribute" →
      pyTruthyS p.class_ref = false →
      resolveEnd classes p = .ok { p with
        typeE := some tc
        classE := none
        is_simple_attribute := true }) ∧
    (∀ p t tc c cc, p.type_ref = some t → classes.lookup t = some tc →
      tc.stereotypeName = some "SimpleAttribute" →
      p.class_ref = some c → c ≠ "" → classes.lookup c = some cc →
      resolveEnd classes p = .ok { p with
        typeE := some tc
        classE := some cc
        is_simple_attribute := true }) := by
  refine ⟨?_, ?_, ?_⟩
  · intro pid p t hmem hp ht hc
    exact resolve_ends_loop_fails properties classes pid p t hp ht hc
      a.memberEnd 0 none [] hmem
  · intro p t tc ht hcl hst hnav
    simp [resolveEnd, ht, hcl, hst, hnav]
  · intro p t tc c cc ht hcl hst hcr hne hcc
    have hnav : pyTruthyS p.class_ref = true := by
      rw [hcr]; simp [pyTruthyS, bne_iff_ne, hne]
    simp [resolveEnd, ht, hcl, hst, hcr, hcc, pyTruthyS, bne_iff_ne, hne]

/-- C4 witness: the metaclass-typed end `pm` fails resolution, and the
`Color`-typed end resolves to a simple attribute. -/
theorem c4_end_dereference_witness :
    exceptIsOk (get_association_ends c4assoc c4props c4classes) = false ∧
    resolveEnd c9input.classes peColor = .ok { peColor with
      typeE := some colorElem
      classE := some boxElem
      is_simple_attribute := true } :=
  ⟨(c4_end_dereference c4assoc c4props c4classes).1 "pm" c4pm "gone"
      (by decide) rfl rfl rfl,
   (c4_end_dereference c4assoc c9input.properties c9input.classes).2.2
      peColor "color_cls" colorElem "box" boxElem rfl rfl rfl rfl
      (by decide) rfl⟩

/-- C4 counterexample: the claim states that an end whose type refers to
a `SimpleAttribute`-stereotyped class fails lookup; the `Box`-`Color`
association resolves successfully against the map the association pass
actually receives (the post-metaclass-filter map, which still contains
`Color`). -/
theorem c4_counterexample :
    exceptIsOk (get_association_ends c9assoc c9input.properties
      c9input.classes) = true ∧
    peColor.type_ref = some "color_cls" ∧
    colorElem.stereotypeName = some "SimpleAttribute" ∧
    filter_out_metaclasses c9input.classes [] [] = .ok c9input.classes :=
  ⟨rfl, rfl, rfl, rfl⟩

/-- C9: on the `Box`-`Color` simple-attribute scenario, `generate` emits
exactly one string-typed attribute call for `Box.color`, no association
call at all, and leaves both member ends marked written. -/
theorem c9_simple_attribute_scenario :
    generate c9input = .ok c9res ∧
    c9res.events = [Event.classDefinition "Box",
      Event.comment ("\x27Box.color\x27 is a simple attribute"),
      Event.attribute (some "Box") (some "color") (some "str"),
      Event.write] ∧
    c9res.events.filter isAssociationCall = [] ∧
    c9res.events.filter isAttributeCall =
      [Event.attribute (some "Box") (some "color") (some "str")] ∧
    (match c9res.properties.lookup "pe_color",
        c9res.properties.lookup "pe_box" with
     | some pc, some pb => pc.written = true ∧ pb.written = true
     | _, _ => False) :=
  ⟨rfl, rfl, rfl, rfl, ⟨rfl, rfl⟩⟩

/-- C1: each association end processed by one orientation of the
classification loop is settled into exactly one of the five outcomes
(the spec-side `classification` is a total function into the five-way
enumeration, so totality and mutual exclusivity hold by construction),
and the source's `if`/`elif` chain realizes exactly the outcome
`classification` assigns: in particular the derived-union outcome only
registers the end (with nothing emitted for it), so no end is both
registered as a derived union and emitted as a plain attribute or plain
association.  The hypothesis is the resolution invariant that a
non-navigable end has no `redefines` tag, no derived flag and no
override-derived qualified name (`parse_association_end` never assigns
them on non-navigable ends). -/
theorem c1_classification_exclusive (derives : String → Bool)
    (asAttr : Option Nat) (i : Nat) (e1 e2 e1b e2b : Property)
    (st st2 : AState)
    (hinv : e1.navigable = false →
      pyTruthyS e1.redefines = false ∧ e1.derived = 0 ∧
      derives (fmt2 e1.class_name e1.name) = false)
    (h : process_orientation derives asAttr i e1 e2 st = .ok (e1b, e2b, st2)) :
    (classification asAttr e1 derives = .nonNavigable → st2 = st) ∧
    (classification asAttr e1 derives = .simpleAttribute →
      st2.derivedunions = st.derivedunions ∧ st2.redefines = st.redefines ∧
      ∀ ev ∈ st2.events, ev ∈ st.events ∨ isAttributeCall ev = true ∨
        isCommentCall ev = true) ∧
    (classification asAttr e1 derives = .redefinition →
      st2.events = st.events ∧ st2.derivedunions = st.derivedunions ∧
      st2.redefines = st.redefines ++ [e1]) ∧
    (classification asAttr e1 derives = .derivedUnionMember →
      st2.events = st.events ∧ st2.redefines = st.redefines ∧
      st2.derivedunions = st.derivedunions ++
        [(e1.name, { e1 with union := [], written := false })]) ∧
    (classification asAttr e1 derives = .plainAssociation →
      st2.derivedunions = st.derivedunions ∧ st2.redefines = st.redefines ∧
      st2.events = st.events ++
        [Event.association e1.class_name e1.name e1.opposite_class_name]) := by
  by_cases hnav : e1.navigable = true
  case neg =>
    have hnavF : e1.navigable = false := by
      cases hb : e1.navigable
      · rfl
      · exact absurd hb hnav
    obtain ⟨hred, hd0, hds⟩ := hinv hnavF
    have hclass : classification asAttr e1 derives = .nonNavigable := by
      simp [classification, hnavF]
    have hst : st2 = st := by
      cases asAttr with
      | some k =>
        have hcond : ¬ (k = i ∧ e1.navigable = true) := by
          rintro ⟨_, hnt⟩; exact hnav hnt
        simp only [process_orientation, if_neg hcond, Except.ok.injEq,
          Prod.mk.injEq] at h
        exact h.2.2.symm
      | none =>
        have hcond : ¬ (e1.derived ≠ 0 ∨
            derives (fmt2 e1.class_name e1.name) = true) := by
          rintro (hcase | hcase)
          · exact hcase hd0
          · rw [hds] at hcase; cases hcase
        simp only [process_orientation, hred, Bool.false_eq_true, if_false,
          if_neg hcond, hnavF, Except.ok.injEq, Prod.mk.injEq] at h
        exact h.2.2.symm
    simp only [hclass]
    refine ⟨fun _ => hst, fun hcl => ?_, fun hcl => ?_, fun hcl => ?_,
      fun hcl => ?_⟩ <;> cases hcl
  case pos =>
    cases asAttr with
    | some k =>
      have hclass : classification (some k) e1 derives = .simpleAttribute := by
        simp [classification, hnav]
      have hmain : st2.derivedunions = st.derivedunions ∧
          st2.redefines = st.redefines ∧
          ∀ ev ∈ st2.events, ev ∈ st.events ∨ isAttributeCall ev = true ∨
            isCommentCall ev = true := by
        by_cases hk : k = i
        · have hcnd : k = i ∧ e1.navigable = true := ⟨hk, hnav⟩
          cases ht2 : e2.typeE with
          | none =>
            simp only [process_orientation, if_pos hcnd, ht2] at h
            exact Except.noConfusion h
          | some t2 =>
            simp only [process_orientation, if_pos hcnd, ht2,
              Except.ok.injEq, Prod.mk.injEq] at h
            obtain ⟨-, -, hst⟩ := h
            rw [← hst]
            refine ⟨rfl, rfl, fun ev hev => ?_⟩
            rcases List.mem_append.mp hev with hin | hin
            · exact Or.inl hin
            · rcases List.mem_cons.mp hin with he | hin2
              · subst he; exact Or.inr (Or.inr rfl)
              · rcases List.mem_cons.mp hin2 with he | hin3
                · subst he; exact Or.inr (Or.inl rfl)
                · cases hin3
        · have hcond : ¬ (k = i ∧ e1.navigable = true) := fun hc => hk hc.1
          simp only [process_orientation, if_neg hcond, Except.ok.injEq,
            Prod.mk.injEq] at h
          obtain ⟨-, -, hst⟩ := h
          rw [← hst]
          exact ⟨rfl, rfl, fun ev hev => Or.inl hev⟩
      simp only [hclass]
      refine ⟨fun hcl => ?_, fun _ => hmain, fun hcl => ?_, fun hcl => ?_,
        fun hcl => ?_⟩ <;> cases hcl
    | none =>
      cases hred : pyTruthyS e1.redefines with
      | true =>
        have hclass : classification none e1 derives = .redefinition := by
          simp [classification, hnav, hred]
        have hmain : st2.events = st.events ∧
            st2.derivedunions = st.derivedunions ∧
            st2.redefines = st.redefines ++ [e1] := by
          simp only [process_orientation, hred, if_true, Except.ok.injEq,
            Prod.mk.injEq] at h
          obtain ⟨-, -, hst⟩ := h
          rw [← hst]
          exact ⟨rfl, rfl, rfl⟩
        simp only [hclass]
        refine ⟨fun hcl => ?_, fun hcl => ?_, fun _ => hmain, fun hcl => ?_,
          fun hcl => ?_⟩ <;> cases hcl
      | false =>
        by_cases hdc : (e1.derived ≠ 0 ∨
            derives (fmt2 e1.class_name e1.name) = true)
        · have hclass : classification none e1 derives = .derivedUnionMember := by
            simp only [classification]
            rw [if_neg (by rw [hnav]; exact fun hc => by cases hc),
              if_neg (by simp), if_neg (by rw [hred]; exact fun hc => by cases hc),
              if_pos hdc]
          have hmain : st2.events = st.events ∧ st2.redefines = st.redefines ∧
              st2.derivedunions = st.derivedunions ++
                [(e1.name, { e1 with union := [], written := false })] := by
            cases hlk : st.derivedunions.lookup e1.name with
            | some other =>
              simp [process_orientation, hred, if_pos hdc, hlk] at h
            | none =>
              simp only [process_orientation, hred, Bool.false_eq_true,
                if_false, if_pos hdc, hlk, Except.ok.injEq, Prod.mk.injEq] at h
              obtain ⟨-, -, hst⟩ := h
              rw [← hst]
              refine ⟨rfl, rfl, ?_⟩
              exact dictInsert_eq_append st.derivedunions e1.name _ hlk
          simp only [hclass]
          refine ⟨fun hcl => ?_, fun hcl => ?_, fun hcl => ?_,
            fun _ => hmain, fun hcl => ?_⟩ <;> cases hcl
        · have hclass : classification none e1 derives = .plainAssociation := by
            simp only [classification]
            rw [if_neg (by rw [hnav]; exact fun hc => by cases hc),
              if_neg (by simp), if_neg (by rw [hred]; exact fun hc => by cases hc),
              if_neg hdc]
          have hmain : st2.derivedunions = st.derivedunions ∧
              st2.redefines = st.redefines ∧
              st2.events = st.events ++
                [Event.association e1.class_name e1.name
                  e1.opposite_class_name] := by
            simp only [process_orientation, hred, Bool.false_eq_true, if_false,
              if_neg hdc, hnav, if_true, Except.ok.injEq, Prod.mk.injEq] at h
            obtain ⟨-, -, hst⟩ := h
            rw [← hst]
            exact ⟨rfl, rfl, rfl⟩
          simp only [hclass]
          refine ⟨fun hcl => ?_, fun hcl => ?_, fun hcl => ?_, fun hcl => ?_,
            fun _ => hmain⟩ <;> cases hcl

/-- C1 witness: the parsed derived end `c5e1` (navigable, derived) is
settled as a derived-union member and nothing else. -/
theorem c1_classification_exclusive_witness :
    (classification none c5e1 (fun _ => false) = .nonNavigable →
      c1wSt2 = {}) ∧
    (classification none c5e1 (fun _ => false) = .simpleAttribute →
      c1wSt2.derivedunions = AState.derivedunions {} ∧
      c1wSt2.redefines = AState.redefines {} ∧
      ∀ ev ∈ c1wSt2.events, ev ∈ AState.events {} ∨
        isAttributeCall ev = true ∨ isCommentCall ev = true) ∧
    (classification none c5e1 (fun _ => false) = .redefinition →
      c1wSt2.events = AState.events {} ∧
      c1wSt2.derivedunions = AState.derivedunions {} ∧
      c1wSt2.redefines = AState.redefines {} ++ [c5e1]) ∧
    (classification none c5e1 (fun _ => false) = .derivedUnionMember →
      c1wSt2.events = AState.events {} ∧
      c1wSt2.redefines = AState.redefines {} ∧
      c1wSt2.derivedunions = AState.derivedunions {} ++
        [(c5e1.name, { c5e1 with union := [], written := false })]) ∧
    (classification none c5e1 (fun _ => false) = .plainAssociation →
      c1wSt2.derivedunions = AState.derivedunions {} ∧
      c1wSt2.redefines = AState.redefines {} ∧
      c1wSt2.events = AState.events {} ++
        [Event.association c5e1.class_name c5e1.name
          c5e1.opposite_class_name]) :=
  c1_classification_exclusive (fun _ => false) none 0 c5e1 c3u2
    c1wE1 c1wE2 {} c1wSt2 (by decide) rfl

theorem isCommentCall_not_emitter (ev : Event) (hc : isCommentCall ev = true) :
    isEmitterCall ev = false := by
  cases ev <;> simp [isCommentCall, isEmitterCall] at *

theorem isMsgCall_not_emitter (ev : Event) (hc : isMsgCall ev = true) :
    isEmitterCall ev = false := by
  cases ev <;> simp [isMsgCall, isEmitterCall] at *

theorem attr_prop_loop_events (derives : String → Bool) (cname : String) :
    ∀ (pids : List Id) (evs : List Event) (da : DAMap) (props : PropMap)
      (evs2 : List Event) (da2 : DAMap) (props2 : PropMap),
      attr_prop_loop derives cname pids (evs, da, props) =
        .ok (evs2, da2, props2) →
      ∀ ev ∈ evs2, ev ∈ evs ∨ isAttributeCall ev = true := by
  intro pids
  induction pids with
  | nil =>
    intro evs da props evs2 da2 props2 h ev hev
    simp only [attr_prop_loop, Except.ok.injEq, Prod.mk.injEq] at h
    obtain ⟨h1, -, -⟩ := h
    subst h1
    exact Or.inl hev
  | cons pid rest ih =>
    intro evs da props evs2 da2 props2 h ev hev
    simp only [attr_prop_loop] at h
    cases hl : props.lookup pid with
    | none => rw [hl] at h; cases h
    | some a0 =>
      rw [hl] at h
      simp only at h
      split at h
      · exact ih _ _ _ _ _ _ h ev hev
      · split at h
        · exact ih _ _ _ _ _ _ h ev hev
        · rcases ih _ _ _ _ _ _ h ev hev with hin | hattr
          · rcases List.mem_append.mp hin with hin2 | hin2
            · exact Or.inl hin2
            · rcases List.mem_cons.mp hin2 with he | he
              · subst he; exact Or.inr rfl
              · cases he
          · exact Or.inr hattr

theorem attr_class_loop_events (derives : String → Bool) :
    ∀ (cs : List (Id × ClassElem)) (evs : List Event) (da : DAMap)
      (props : PropMap) (evs2 : List Event) (da2 : DAMap) (props2 : PropMap),
      attr_class_loop derives cs (evs, da, props) = .ok (evs2, da2, props2) →
      ∀ ev ∈ evs2, ev ∈ evs ∨ isAttributeCall ev = true := by
  intro cs
  induction cs with
  | nil =>
    intro evs da props evs2 da2 props2 h ev hev
    simp only [attr_class_loop, Except.ok.injEq, Prod.mk.injEq] at h
    obtain ⟨h1, -, -⟩ := h
    subst h1
    exact Or.inl hev
  | cons kc rest ih =>
    intro evs da props evs2 da2 props2 h ev hev
    obtain ⟨k, c⟩ := kc
    simp only [attr_class_loop] at h
    cases hstep : attr_prop_loop derives c.name c.ownedAttribute
        (evs, da, props) with
    | error e => rw [hstep] at h; cases h
    | ok st1 =>
      rw [hstep] at h
      obtain ⟨evs1, da1, props1⟩ := st1
      rcases ih _ _ _ _ _ _ h ev hev with hin | hattr
      · exact attr_prop_loop_events derives c.name c.ownedAttribute
          evs da props evs1 da1 props1 hstep ev hin
      · exact Or.inr hattr

theorem process_orientation_events (derives : String → Bool)
    (asAttr : Option Nat) (i : Nat) (e1 e2 e1b e2b : Property)
    (st st2 : AState)
    (h : process_orientation derives asAttr i e1 e2 st = .ok (e1b, e2b, st2)) :
    ∀ ev ∈ st2.events, ev ∈ st.events ∨ isAttributeCall ev = true ∨
      isAssociationCall ev = true ∨ isCommentCall ev = true := by
  intro ev hev
  cases asAttr with
  | some k =>
    simp only [process_orientation] at h
    split at h
    · split at h
      · exact Except.noConfusion h
      · simp only [Except.ok.injEq, Prod.mk.injEq] at h
        obtain ⟨-, -, hst⟩ := h
        rw [← hst] at hev
        rcases List.mem_append.mp hev with hin | hin
        · exact Or.inl hin
        · rcases List.mem_cons.mp hin with he | hin2
          · subst he; exact Or.inr (Or.inr (Or.inr rfl))
          · rcases List.mem_cons.mp hin2 with he | hin3
            · subst he; exact Or.inr (Or.inl rfl)
            · cases hin3
    · simp only [Except.ok.injEq, Prod.mk.injEq] at h
      obtain ⟨-, -, hst⟩ := h
      rw [← hst] at hev
      exact Or.inl hev
  | none =>
    simp only [process_orientation] at h
    split at h
    · simp only [Except.ok.injEq, Prod.mk.injEq] at h
      obtain ⟨-, -, hst⟩ := h
      rw [← hst] at hev
      exact Or.inl hev
    · split at h
      · split at h
        · exact Except.noConfusion h
        · simp only [Except.ok.injEq, Prod.mk.injEq] at h
          obtain ⟨-, -, hst⟩ := h
          rw [← hst] at hev
          exact Or.inl hev
      · split at h
        · simp only [Except.ok.injEq, Prod.mk.injEq] at h
          obtain ⟨-, -, hst⟩ := h
          rw [← hst] at hev
          rcases List.mem_append.mp hev with hin | hin
          · exact Or.inl hin
          · rcases List.mem_cons.mp hin with he | hin2
            · subst he; exact Or.inr (Or.inr (Or.inl rfl))
            · cases hin2
        · simp only [Except.ok.injEq, Prod.mk.injEq] at h
          obtain ⟨-, -, hst⟩ := h
          rw [← hst] at hev
          exact Or.inl hev

theorem process_association_events (derives : String → Bool)
    (all_classes : ClassMap) (st : AState) (props : PropMap) (a : Assoc)
    (st2 : AState) (props2 : PropMap)
    (h : process_association derives all_classes st props a = .ok (st2, props2)) :
    ∀ ev ∈ st2.events, ev ∈ st.events ∨ isAttributeCall ev = true ∨
      isAssociationCall ev = true ∨ isCommentCall ev = true := by
  intro ev hev
  simp only [process_association] at h
  cases hg : get_association_ends a props all_classes with
  | error e => rw [hg] at h; cases h
  | ok pair =>
    rw [hg] at h
    obtain ⟨asAttr, ends⟩ := pair
    simp only at h
    cases ends with
    | nil => cases h
    | cons p0 tl =>
      cases tl with
      | nil => cases h
      | cons p1 tl2 =>
        obtain ⟨k0, e0⟩ := p0
        obtain ⟨k1, e1⟩ := p1
        simp only at h
        cases hp0 : parse_association_end e0 e1 with
        | error e => rw [hp0] at h; cases h
        | ok q0 =>
          rw [hp0] at h
          cases hp1 : parse_association_end e1 e0 with
          | error e => rw [hp1] at h; cases h
          | ok q1 =>
            rw [hp1] at h
            simp only at h
            cases ho1 : process_orientation derives asAttr 0 q0 q1 st with
            | error e => rw [ho1] at h; cases h
            | ok trip1 =>
              rw [ho1] at h
              obtain ⟨q0b, q1b, st1⟩ := trip1
              simp only at h
              cases ho2 : process_orientation derives asAttr 1 q1b q0b st1 with
              | error e => rw [ho2] at h; cases h
              | ok trip2 =>
                rw [ho2] at h
                obtain ⟨q1c, q0c, stB⟩ := trip2
                simp only [Except.ok.injEq, Prod.mk.injEq] at h
                obtain ⟨hst, -⟩ := h
                rw [← hst] at hev
                rcases process_orientation_events derives asAttr 1 q1b q0b
                    q1c q0c st1 stB ho2 ev hev with hin | hk
                · rcases process_orientation_events derives asAttr 0 q0 q1
                      q0b q1b st st1 ho1 ev hin with hin2 | hk2
                  · exact Or.inl hin2
                  · exact Or.inr hk2
                · exact Or.inr hk

theorem association_pass_events (derives : String → Bool)
    (all_classes : ClassMap) :
    ∀ (assocs : List Assoc) (st : AState) (props : PropMap) (st2 : AState)
      (props2 : PropMap),
      association_pass derives all_classes assocs st props = .ok (st2, props2) →
      ∀ ev ∈ st2.events, ev ∈ st.events ∨ isAttributeCall ev = true ∨
        isAssociationCall ev = true ∨ isCommentCall ev = true := by
  intro assocs
  induction assocs with
  | nil =>
    intro st props st2 props2 h ev hev
    simp only [association_pass, Except.ok.injEq, Prod.mk.injEq] at h
    obtain ⟨h1, -⟩ := h
    subst h1
    exact Or.inl hev
  | cons a rest ih =>
    intro st props st2 props2 h ev hev
    simp only [association_pass] at h
    cases hstep : process_association derives all_classes st props a with
    | error e => rw [hstep] at h; cases h
    | ok pair =>
      rw [hstep] at h
      obtain ⟨st1, props1⟩ := pair
      rcases ih _ _ _ _ h ev hev with hin | hk
      · exact process_association_events derives all_classes st props a
          st1 props1 hstep ev hin
      · exact Or.inr hk

theorem subset_step_msgs (classes : ClassMap) (a : Property)
    (st : DUMap × List Event) (s : String) :
    ∀ ev ∈ (subset_step classes a st s).2, ev ∈ st.2 ∨ isMsgCall ev = true := by
  intro ev hev
  simp only [subset_step] at hev
  split at hev
  · split at hev
    · exact Or.inl hev
    · rcases List.mem_append.mp hev with hin | hin
      · exact Or.inl hin
      · rcases List.mem_cons.mp hin with he | hin2
        · subst he; exact Or.inr rfl
        · cases hin2
  · exact Or.inl hev

theorem aggregate_subsets_msgs (classes : ClassMap) (a : Property) :
    ∀ (ss : List String) (st : DUMap × List Event),
      ∀ ev ∈ (aggregate_subsets classes a ss st).2,
        ev ∈ st.2 ∨ isMsgCall ev = true := by
  intro ss
  induction ss with
  | nil => intro st ev hev; exact Or.inl hev
  | cons s rest ih =>
    intro st ev hev
    rcases ih (subset_step classes a st s) ev hev with hin | hk
    · exact subset_step_msgs classes a st s ev hin
    · exact Or.inr hk

theorem aggregate_props_msgs (classes : ClassMap) :
    ∀ (props : PropMap) (st : DUMap × List Event),
      ∀ ev ∈ (aggregate_props classes props st).2,
        ev ∈ st.2 ∨ isMsgCall ev = true := by
  intro props
  induction props with
  | nil => intro st ev hev; exact Or.inl hev
  | cons kp rest ih =>
    intro st ev hev
    rcases ih (aggregate_subsets classes kp.2 kp.2.subsets st) ev hev with
      hin | hk
    · exact aggregate_subsets_msgs classes kp.2 kp.2.subsets st ev hin
    · exact Or.inr hk

theorem redefine_events_kinds :
    ∀ (rs : List Property), ∀ ev ∈ redefine_events rs,
      isMsgCall ev = true ∨ isRedefineCall ev = true := by
  intro rs
  induction rs with
  | nil => intro ev hev; cases hev
  | cons r rest ih =>
    intro ev hev
    rcases List.mem_cons.mp hev with he | hin
    · subst he; exact Or.inl rfl
    · rcases List.mem_cons.mp hin with he | hin2
      · subst he; exact Or.inr rfl
      · exact ih ev hin2

theorem op_prop_loop_events (ops : List (Id × Operation)) (cname : String) :
    ∀ (pids : List Id) (evs evs2 : List Event),
      op_prop_loop ops cname pids evs = .ok evs2 →
      ∀ ev ∈ evs2, ev ∈ evs ∨ isOperationCall ev = true := by
  intro pids
  induction pids with
  | nil =>
    intro evs evs2 h ev hev
    simp only [op_prop_loop, Except.ok.injEq] at h
    subst h
    exact Or.inl hev
  | cons pid rest ih =>
    intro evs evs2 h ev hev
    simp only [op_prop_loop] at h
    cases hl : ops.lookup pid with
    | none => rw [hl] at h; cases h
    | some o =>
      rw [hl] at h
      simp only at h
      rcases ih _ _ h ev hev with hin | hop
      · rcases List.mem_append.mp hin with hin2 | hin2
        · exact Or.inl hin2
        · rcases List.mem_cons.mp hin2 with he | he
          · subst he; exact Or.inr rfl
          · cases he
      · exact Or.inr hop

theorem op_class_loop_events (ops : List (Id × Operation)) :
    ∀ (cs : List (Id × ClassElem)) (evs evs2 : List Event),
      op_class_loop ops cs evs = .ok evs2 →
      ∀ ev ∈ evs2, ev ∈ evs ∨ isOperationCall ev = true := by
  intro cs
  induction cs with
  | nil =>
    intro evs evs2 h ev hev
    simp only [op_class_loop, Except.ok.injEq] at h
    subst h
    exact Or.inl hev
  | cons kc rest ih =>
    intro evs evs2 h ev hev
    simp only [op_class_loop] at h
    cases hstep : op_prop_loop ops kc.2.name kc.2.ownedOperation evs with
    | error e => rw [hstep] at h; cases h
    | ok evs1 =>
      rw [hstep] at h
      rcases ih _ _ h ev hev with hin | hop
      · exact op_prop_loop_events ops kc.2.name kc.2.ownedOperation
          evs evs1 hstep ev hin
      · exact Or.inr hop

theorem generate_ok_shape (inp : GenInput) (res : GenResult)
    (h : generate inp = .ok res) :
    ∃ (cs1 : ClassMap) (attrEvents : List Event) (da : DAMap)
      (props1 : PropMap) (ast : AState) (props2 : PropMap)
      (opEvents : List Event),
      filter_out_metaclasses inp.classes inp.extensions inp.all_elements =
        .ok cs1 ∧
      attr_class_loop inp.derives (filter_out_simple_attributes cs1)
        ([], [], inp.properties) = .ok (attrEvents, da, props1) ∧
      association_pass inp.derives cs1 inp.associations {} props1 =
        .ok (ast, props2) ∧
      op_class_loop inp.operations (filter_out_simple_attributes cs1) [] =
        .ok opEvents ∧
      res.events =
        (filter_out_simple_attributes cs1).map
          (fun kc => Event.classDefinition kc.2.name) ++
        attrEvents ++ ast.events ++
        (aggregate_props (filter_out_simple_attributes cs1) props2
          (ast.derivedunions, [])).2 ++
        da.map (fun kv =>
          Event.attribute kv.2.class_name kv.2.name kv.2.typeValue) ++
        (aggregate_props (filter_out_simple_attributes cs1) props2
          (ast.derivedunions, [])).1.map
          (fun kv => Event.derivedunion kv.1 kv.2.union) ++
        redefine_events ast.redefines ++ opEvents ++ [Event.write] := by
  simp only [generate] at h
  cases hf : filter_out_metaclasses inp.classes inp.extensions
      inp.all_elements with
  | error e => rw [hf] at h; cases h
  | ok cs1 =>
    rw [hf] at h
    simp only at h
    cases ha : attr_class_loop inp.derives (filter_out_simple_attributes cs1)
        ([], [], inp.properties) with
    | error e => rw [ha] at h; cases h
    | ok triple =>
      rw [ha] at h
      obtain ⟨attrEvents, da, props1⟩ := triple
      simp only at h
      cases hassoc : association_pass inp.derives cs1 inp.associations {}
          props1 with
      | error e => rw [hassoc] at h; cases h
      | ok pair =>
        rw [hassoc] at h
        obtain ⟨ast, props2⟩ := pair
        simp only at h
        cases hop : op_class_loop inp.operations
            (filter_out_simple_attributes cs1) [] with
        | error e => rw [hop] at h; cases h
        | ok opEvents =>
          rw [hop] at h
          simp only [Except.ok.injEq] at h
          refine ⟨cs1, attrEvents, da, props1, ast, props2, opEvents,
            rfl, ha, hassoc, hop, ?_⟩
          rw [← h]

/-- C3 counterexample: the claim orders all redefine calls before all
derived-union calls (and all attribute calls before all association
calls); on `c3input`, which holds one derived-union end and one
redefining end, `generate` emits the derived-union call before the
redefine call, so the emitter-call ranks of the run are not in the
claimed order. -/
theorem c3_counterexample :
    generate c3input = .ok c3res ∧
    ranksOrdered ((emitterCalls c3res.events).map claimRank) = false :=
  ⟨rfl, rfl⟩

/-- C3 amended: the emitter receives calls grouped in this order: class
definitions, then plain attribute calls, then the association pass
(attribute calls for simple-attribute rewrites interleaved with
association calls), then held-back derived-attribute calls, then
derived-union calls, then redefine calls, then operation calls, then
one final write call. -/
theorem c3_emitter_call_order (inp : GenInput) (res : GenResult)
    (h : generate inp = .ok res) :
    ∃ l1 l2 l3 l4 l5 l6 l7 : List Event,
      emitterCalls res.events =
        l1 ++ l2 ++ l3 ++ l4 ++ l5 ++ l6 ++ l7 ++ [Event.write] ∧
      (∀ ev ∈ l1, isClassdefCall ev = true) ∧
      (∀ ev ∈ l2, isAttributeCall ev = true) ∧
      (∀ ev ∈ l3, isAttributeCall ev = true ∨ isAssociationCall ev = true) ∧
      (∀ ev ∈ l4, isAttributeCall ev = true) ∧
      (∀ ev ∈ l5, isDerivedunionCall ev = true) ∧
      (∀ ev ∈ l6, isRedefineCall ev = true) ∧
      (∀ ev ∈ l7, isOperationCall ev = true) := by
  obtain ⟨cs1, attrEvents, da, props1, ast, props2, opEvents,
    hf, ha, hassoc, hop, hev⟩ := generate_ok_shape inp res h
  refine ⟨emitterCalls ((filter_out_simple_attributes cs1).map
      (fun kc => Event.classDefinition kc.2.name)),
    emitterCalls attrEvents,
    emitterCalls ast.events ++ emitterCalls
      (aggregate_props (filter_out_simple_attributes cs1) props2
        (ast.derivedunions, [])).2,
    emitterCalls (da.map (fun kv =>
      Event.attribute kv.2.class_name kv.2.name kv.2.typeValue)),
    emitterCalls ((aggregate_props (filter_out_simple_attributes cs1) props2
      (ast.derivedunions, [])).1.map
      (fun kv => Event.derivedunion kv.1 kv.2.union)),
    emitterCalls (redefine_events ast.redefines),
    emitterCalls opEvents, ?_, ?_, ?_, ?_, ?_, ?_, ?_, ?_⟩
  · rw [hev]
    simp only [emitterCalls, List.filter_append, List.append_assoc]
    rfl
  · intro ev hev1
    obtain ⟨hin, -⟩ := List.mem_filter.mp hev1
    obtain ⟨kc, -, he⟩ := List.mem_map.mp hin
    rw [← he]; rfl
  · intro ev hev1
    obtain ⟨hin, -⟩ := List.mem_filter.mp hev1
    rcases attr_class_loop_events inp.derives
        (filter_out_simple_attributes cs1) [] [] inp.properties
        attrEvents da props1 ha ev hin with hn | hk
    · cases hn
    · exact hk
  · intro ev hev1
    rcases List.mem_append.mp hev1 with hev2 | hev2
    · obtain ⟨hin, hem⟩ := List.mem_filter.mp hev2
      rcases association_pass_events inp.derives cs1 inp.associations {}
          props1 ast props2 hassoc ev hin with hn | hk
      · cases hn
      · rcases hk with hk | hk | hk
        · exact Or.inl hk
        · exact Or.inr hk
        · rw [isCommentCall_not_emitter ev hk] at hem; cases hem
    · obtain ⟨hin, hem⟩ := List.mem_filter.mp hev2
      rcases aggregate_props_msgs (filter_out_simple_attributes cs1) props2
          (ast.derivedunions, []) ev hin with hn | hk
      · cases hn
      · rw [isMsgCall_not_emitter ev hk] at hem; cases hem
  · intro ev hev1
    obtain ⟨hin, -⟩ := List.mem_filter.mp hev1
    obtain ⟨kv, -, he⟩ := List.mem_map.mp hin
    rw [← he]; rfl
  · intro ev hev1
    obtain ⟨hin, -⟩ := List.mem_filter.mp hev1
    obtain ⟨kv, -, he⟩ := List.mem_map.mp hin
    rw [← he]; rfl
  · intro ev hev1
    obtain ⟨hin, hem⟩ := List.mem_filter.mp hev1
    rcases redefine_events_kinds ast.redefines ev hin with hk | hk
    · rw [isMsgCall_not_emitter ev hk] at hem; cases hem
    · exact hk
  · intro ev hev1
    obtain ⟨hin, -⟩ := List.mem_filter.mp hev1
    rcases op_class_loop_events inp.operations
        (filter_out_simple_attributes cs1) [] opEvents hop ev hin with hn | hk
    · cases hn
    · exact hk

/-- C3 witness for the amended statement: the grouped decomposition on
the run of `c3input`. -/
theorem c3_emitter_call_order_witness :
    ∃ res : GenResult, generate c3input = .ok res ∧
      ∃ l1 l2 l3 l4 l5 l6 l7 : List Event,
        emitterCalls res.events =
          l1 ++ l2 ++ l3 ++ l4 ++ l5 ++ l6 ++ l7 ++ [Event.write] ∧
        (∀ ev ∈ l1, isClassdefCall ev = true) ∧
        (∀ ev ∈ l2, isAttributeCall ev = true) ∧
        (∀ ev ∈ l3, isAttributeCall ev = true ∨ isAssociationCall ev = true) ∧
        (∀ ev ∈ l4, isAttributeCall ev = true) ∧
        (∀ ev ∈ l5, isDerivedunionCall ev = true) ∧
        (∀ ev ∈ l6, isRedefineCall ev = true) ∧
        (∀ ev ∈ l7, isOperationCall ev = true) :=
  ⟨c3res, rfl, c3_emitter_call_order c3input c3res rfl⟩

end GenUml
